import Mathlib

/-!
# Verification of the HAP pairing / encrypted-transport core

Shallow embedding of `test_hap_volume.py` (HAP pair-setup, pair-verify,
chunked AEAD transport, volume-characteristic lookup) and of
`custom_components/airplay_speakers/binary_manager.py` (CLI volume clamping).

Modelling conventions:
* Byte strings on the wire are `List Nat` (each entry one byte value).
* The cryptographic primitives supplied by external libraries
  (`cryptography`, `aiohomekit`) are modelled symbolically by the term
  algebra `HBytes`: an AEAD ciphertext is an opaque sealed box that opens
  exactly when key, nonce and associated data match; an Ed25519 signature
  verifies exactly when it was produced by the private key matching the
  public key over the same message.  This is the standard idealised
  (Dolev-Yao) model of the primitives.
* Python `float` arithmetic in the CLI manager is idealised as exact
  rational arithmetic (`ℚ`), with Python `round` (banker's rounding)
  modelled on exact values.
-/

/-- ASCII bytes of a string literal (all protocol labels are ASCII). -/
def asciiBytes (s : String) : List Nat := s.data.map Char.toNat

/-- ASCII lower-casing of one byte, as Python `str.lower` acts on the
ASCII range of a decoded header line. -/
def lowerB (b : Nat) : Nat := if 65 ≤ b ∧ b ≤ 90 then b + 32 else b

/-- Is this byte an ASCII decimal digit? -/
def isDigitB (b : Nat) : Bool := 48 ≤ b && b ≤ 57

/-- Value of a nonempty all-digit byte string, else `none`
(the digits part of Python `int(...)` parsing). -/
def digitsVal (l : List Nat) : Option Nat :=
  if l.isEmpty then none
  else if l.all isDigitB then some (l.foldl (fun a b => a * 10 + (b - 48)) 0)
  else none

/-- Python `int(s)` on an already-stripped byte string: optional sign then
decimal digits. -/
def parseIntB (l : List Nat) : Option Int :=
  match l with
  | 43 :: rest => (digitsVal rest).map Int.ofNat
  | 45 :: rest => (digitsVal rest).map (fun n => -(n : Int))
  | _ => (digitsVal l).map Int.ofNat

/-- Whitespace bytes removed by Python `str.strip()` (ASCII range). -/
def isSpaceB (b : Nat) : Bool :=
  b == 32 || b == 9 || b == 10 || b == 13 || b == 11 || b == 12

/-- Python `str.strip()` on a byte string. -/
def stripB (l : List Nat) : List Nat :=
  ((l.dropWhile isSpaceB).reverse.dropWhile isSpaceB).reverse

/-- `leadsWith pat l` is true when `pat` occurs at the very front of `l`
(Python `str.startswith`). -/
def leadsWith {α : Type} [BEq α] : List α → List α → Bool
  | [], _ => true
  | _ :: _, [] => false
  | p :: ps, x :: xs => p == x && leadsWith ps xs

/-- `hasSubL pat l` is true when `pat` occurs somewhere inside `l`
(Python `pat in l` on strings). -/
def hasSubL {α : Type} [BEq α] (pat : List α) : List α → Bool
  | [] => leadsWith pat ([] : List α)
  | x :: xs => leadsWith pat (x :: xs) || hasSubL pat xs

/-- Index of the first occurrence of `pat` in `l` (Python `bytes.index`),
`none` when absent. -/
def findSeq (pat : List Nat) : List Nat → Option Nat
  | [] => if leadsWith pat ([] : List Nat) then some 0 else none
  | x :: xs =>
    if leadsWith pat (x :: xs) then some 0
    else (findSeq pat xs).map (· + 1)

/-- Split a byte string on CRLF separators (Python `s.split("\r\n")`). -/
def splitCRLF : List Nat → List (List Nat)
  | [] => [[]]
  | 13 :: 10 :: rest => [] :: splitCRLF rest
  | x :: rest =>
    match splitCRLF rest with
    | [] => [[x]]
    | h :: t => (x :: h) :: t

/-- Split a byte string on `:` (Python `s.split(":")`). -/
def splitColon : List Nat → List (List Nat)
  | [] => [[]]
  | 58 :: rest => [] :: splitColon rest
  | x :: rest =>
    match splitColon rest with
    | [] => [[x]]
    | h :: t => (x :: h) :: t

/-- Python slice `l[:n]` for a possibly negative `n`. -/
def pyTake (l : List Nat) (n : Int) : List Nat :=
  if 0 ≤ n then l.take n.toNat else l.take (l.length - (-n).toNat)

/-- Symbolic byte strings: concrete bytes plus opaque terms for the
outputs of the external cryptographic primitives (Ed25519, X25519, HKDF,
SRP).  Two terms are equal exactly when they were built the same way,
which is the idealised collision-free model of these primitives. -/
inductive HBytes where
  | raw : List Nat → HBytes
  | cat : HBytes → HBytes → HBytes
  | pubEd : Nat → HBytes
  | edSk : Nat → HBytes
  | pubX : Nat → HBytes
  | xShared : Nat → HBytes → HBytes
  | sign : Nat → HBytes → HBytes
  | hkdf : HBytes → List Nat → List Nat → Nat → HBytes
  | hexed : HBytes → HBytes
  | srpClientPk : List Nat → HBytes → HBytes → HBytes
  | srpClientProof : List Nat → HBytes → HBytes → HBytes
  | srpSessionKey : List Nat → HBytes → HBytes → HBytes
  | srpServerProof : List Nat → HBytes → HBytes → HBytes
deriving DecidableEq, Repr

/-- `bytes.fromhex` applied to a stored hex string: recovers the bytes
that were hex-encoded, fails on anything else. -/
def fromHex : HBytes → Option HBytes
  | .hexed b => some b
  | _ => none

/-- `Ed25519PrivateKey.from_private_bytes`: recover the private key from
its raw byte serialization, fail on any other bytes. -/
def edSkOf : HBytes → Option Nat
  | .edSk n => some n
  | _ => none

/-- `Ed25519PublicKey.verify(signature, message)`: succeeds exactly when
the signature was produced over the same message by the private key
matching this public key. -/
def edVerify (pk sigv msg : HBytes) : Bool :=
  match sigv with
  | .sign sk m => pk == HBytes.pubEd sk && m == msg
  | _ => false

/- HKDF label constants used by `hkdf_derive` call sites in the source. -/

/-- Salt of the pair-setup controller-signing derivation (line 244). -/
def pairSetupSignSalt : List Nat := asciiBytes "Pair-Setup-Controller-Sign-Salt"

/-- Info of the pair-setup controller-signing derivation (line 245). -/
def pairSetupSignInfo : List Nat := asciiBytes "Pair-Setup-Controller-Sign-Info"

/-- Salt of the pair-setup M5/M6 encryption-key derivation (line 256). -/
def pairSetupEncryptSalt : List Nat := asciiBytes "Pair-Setup-Encrypt-Salt"

/-- Info of the pair-setup M5/M6 encryption-key derivation (line 257). -/
def pairSetupEncryptInfo : List Nat := asciiBytes "Pair-Setup-Encrypt-Info"

/-- Salt of the pair-verify handshake-key derivation (line 330). -/
def pairVerifyEncryptSalt : List Nat := asciiBytes "Pair-Verify-Encrypt-Salt"

/-- Info of the pair-verify handshake-key derivation (line 331). -/
def pairVerifyEncryptInfo : List Nat := asciiBytes "Pair-Verify-Encrypt-Info"

/-- Shared salt of both per-direction session-key derivations (lines 374, 376). -/
def controlSalt : List Nat := asciiBytes "Control-Salt"

/-- Info of the send-direction session-key derivation (line 375). -/
def controlWriteInfo : List Nat := asciiBytes "Control-Write-Encryption-Key"

/-- Info of the receive-direction session-key derivation (line 377). -/
def controlReadInfo : List Nat := asciiBytes "Control-Read-Encryption-Key"

/-- The five fixed (salt, info) HKDF label pairs used across the protocol. -/
def hkdfLabelPairs : List (List Nat × List Nat) :=
  [(pairSetupSignSalt, pairSetupSignInfo),
   (pairSetupEncryptSalt, pairSetupEncryptInfo),
   (pairVerifyEncryptSalt, pairVerifyEncryptInfo),
   (controlSalt, controlWriteInfo),
   (controlSalt, controlReadInfo)]

/- Fixed handshake nonces. -/

/-- Nonce of the M5 message: `b"\x00\x00\x00\x00PS-Msg05"` (line 259). -/
def noncePS05 : List Nat := [0, 0, 0, 0] ++ asciiBytes "PS-Msg05"

/-- Nonce of the M6 message: `b"\x00\x00\x00\x00PS-Msg06"` (line 275). -/
def noncePS06 : List Nat := [0, 0, 0, 0] ++ asciiBytes "PS-Msg06"

/-- Nonce of the pair-verify M2 message (line 335). -/
def noncePV02 : List Nat := [0, 0, 0, 0] ++ asciiBytes "PV-Msg02"

/-- Nonce of the pair-verify M3 message (line 360). -/
def noncePV03 : List Nat := [0, 0, 0, 0] ++ asciiBytes "PV-Msg03"

/-- A symbolic ChaCha20-Poly1305 ciphertext wrapping a TLV entry list, as
used during the pair-setup / pair-verify handshake (where every `encrypt` /
`decrypt` call wraps an encoded TLV sub-message). -/
structure SealedTV where
  key : HBytes
  nonce : List Nat
  aad : List Nat
  pt : List (Nat × HBytes)
deriving DecidableEq, Repr

/-- `ChaCha20Poly1305(key).decrypt(nonce, box, aad)` in the handshake:
opens exactly when key, nonce and associated data match the ones the box
was sealed with; otherwise the tag check fails. -/
def sealOpenTV (k : HBytes) (n a : List Nat) (b : SealedTV) :
    Option (List (Nat × HBytes)) :=
  if b.key = k ∧ b.nonce = n ∧ b.aad = a then some b.pt else none

/-- A symbolic ChaCha20-Poly1305 ciphertext over raw plaintext bytes, as
used by the encrypted transport layer. -/
structure SealedBS where
  key : HBytes
  nonce : List Nat
  aad : List Nat
  pt : List Nat
deriving DecidableEq, Repr

/-- Transport-layer AEAD opening: tag check fails unless key, nonce and
associated data all match. -/
def sealOpenBS (k : HBytes) (n a : List Nat) (b : SealedBS) :
    Option (List Nat) :=
  if b.key = k ∧ b.nonce = n ∧ b.aad = a then some b.pt else none

/-- One wire frame of the encrypted transport: the 2-byte length prefix as
written on the wire, followed by the sealed chunk (ciphertext plus tag). -/
structure Frame where
  lenBytes : List Nat
  box : SealedBS
deriving DecidableEq, Repr

/-- The mutable fields of `HapSession` that the claims are about: the two
direction keys (`None` until pair-verify succeeds) and the two nonce
counters.  `__init__` sets keys to `None` and counters to `0`. -/
structure Session where
  encryptKey : Option HBytes
  decryptKey : Option HBytes
  sendCounter : Nat
  recvCounter : Nat
deriving DecidableEq, Repr

/-- A fresh `HapSession(host, port)`. -/
def initSession : Session :=
  { encryptKey := none, decryptKey := none, sendCounter := 0, recvCounter := 0 }

/-- The dict returned by `pair_setup` and stored by `cmd_pair`: binary
keys hex-encoded, identifiers as strings, accessory address and port. -/
structure PairingRecord where
  iOSDeviceLTSK : HBytes
  iOSDeviceLTPK : HBytes
  iOSPairingId : HBytes
  AccessoryLTPK : HBytes
  AccessoryPairingID : HBytes
  AccessoryAddress : String
  AccessoryPort : Nat
deriving DecidableEq, Repr

/- ## Encrypted transport (`HapSession._encrypt`, `_read_encrypted_response`) -/

/-- `struct.pack("<H", n)`: two little-endian bytes (chunk lengths are at
most 1024 so no overflow occurs at the call sites). -/
def le2 (n : Nat) : List Nat := [n % 256, n / 256 % 256]

/-- `struct.pack("<Q", c)`: eight little-endian bytes of the counter. -/
def le8 (c : Nat) : List Nat :=
  [c % 256, c / 256 % 256, c / 256 ^ 2 % 256, c / 256 ^ 3 % 256,
   c / 256 ^ 4 % 256, c / 256 ^ 5 % 256, c / 256 ^ 6 % 256, c / 256 ^ 7 % 256]

/-- `struct.pack("<Q", c).ljust(12, b"\x00")`: the 12-byte AEAD nonce
built from a counter (line 129 and line 149 of the source). -/
def nonce12 (c : Nat) : List Nat := le8 c ++ [0, 0, 0, 0]

/-- Recursion core of `HapSession._encrypt`, structurally recursive on a
fuel argument (one unit per emitted chunk; the wrapper passes the data
length, which always suffices since every chunk is nonempty). -/
def encryptF (key : HBytes) : Nat → List Nat → Nat → List Frame × Nat
  | _, [], c => ([], c)
  | 0, _ :: _, c => ([], c)
  | fuel + 1, x :: rest, c =>
    let chunk := (x :: rest).take 1024
    let aad := le2 chunk.length
    let frame : Frame := ⟨aad, ⟨key, nonce12 c, aad, chunk⟩⟩
    let r := encryptF key fuel ((x :: rest).drop 1024) (c + 1)
    (frame :: r.1, r.2)

/-- `HapSession._encrypt` (lines 122-136): split `data` into chunks of at
most 1024 bytes via `data[offset:offset+1024]`; for each chunk seal it
under the send key with the counter nonce and the 2-byte length prefix as
associated data, emit the prefix followed by the sealed chunk, and bump
the counter.  Returns the emitted frames and the final send counter. -/
def encryptChunks (key : HBytes) (data : List Nat) (c : Nat) :
    List Frame × Nat :=
  encryptF key data.length data c

/-- Recursion core of the specification-side chunking (fuel as above). -/
def chunksF : Nat → List Nat → List (List Nat)
  | _, [] => []
  | 0, _ :: _ => []
  | fuel + 1, x :: rest =>
    (x :: rest).take 1024 :: chunksF fuel ((x :: rest).drop 1024)

/-- Specification-side chunking: the consecutive ≤1024-byte chunks of a
byte string. -/
def chunks1024 (data : List Nat) : List (List Nat) :=
  chunksF data.length data

/-- Specification-side frame stream: the i-th chunk is sealed under nonce
`c0 + i` with its 2-byte little-endian length as associated data. -/
def frameSpec (key : HBytes) (c0 : Nat) : List (List Nat) → List Frame
  | [] => []
  | ch :: rest =>
    ⟨le2 ch.length, ⟨key, nonce12 c0, le2 ch.length, ch⟩⟩ ::
      frameSpec key (c0 + 1) rest

/-- Errors of the inbound transport path. -/
inductive RErr where
  | truncated
  | badTag
  | clParse
deriving DecidableEq, Repr

/-- The CRLF CRLF separator terminating an HTTP header block. -/
def crlfcrlf : List Nat := [13, 10, 13, 10]

/-- `result.index(b"\r\n\r\n") + 4` when the terminator is present:
one past the end of the header block. -/
def headerEndIdx (l : List Nat) : Option Nat :=
  (findSeq crlfcrlf l).map (· + 4)

/-- The Content-Length scan of lines 160-163: fold over the header lines,
keeping the parse of the last `content-length:` line (initial value 0);
an unparsable value raises `ValueError` (modelled as `.error .clParse`). -/
def clOfLines (ls : List (List Nat)) : Except RErr Int :=
  ls.foldl
    (fun acc line =>
      match acc with
      | .error e => .error e
      | .ok cl =>
        if leadsWith (asciiBytes "content-length:") (line.map lowerB) then
          match parseIntB (stripB ((splitColon line).getD 1 [])) with
          | some n => .ok n
          | none => .error .clParse
        else .ok cl)
    (.ok 0)

/-- The completeness check of lines 156-166: once the accumulated
plaintext contains `\r\n\r\n`, parse Content-Length from the header block
and return `body[:cl]` when at least `cl` body bytes have accumulated;
otherwise signal that more chunks are needed (`.ok none`). -/
def httpComplete (acc : List Nat) : Except RErr (Option (List Nat)) :=
  match headerEndIdx acc with
  | none => .ok none
  | some he =>
    let headerBytes := acc.take he
    match clOfLines (splitCRLF headerBytes) with
    | .error e => .error e
    | .ok cl =>
      let body := acc.drop he
      if (body.length : Int) ≥ cl then .ok (some (pyTake body cl))
      else .ok none

/-- `HapSession._read_encrypted_response` (lines 138-166) over a stream of
frames: read a frame, open it under the receive key with the counter
nonce and the wire length prefix as associated data (a failed tag check
raises `InvalidTag`), append the plaintext, bump the counter, and return
the body once a complete HTTP message has accumulated.  An exhausted
stream before completion raises (`readexactly` fails). -/
def readEncryptedLoop (key : HBytes) :
    List Frame → Nat → List Nat → Except RErr (List Nat)
  | [], _, _ => .error .truncated
  | f :: fs, c, acc =>
    match sealOpenBS key (nonce12 c) f.lenBytes f.box with
    | none => .error .badTag
    | some pt =>
      let acc2 := acc ++ pt
      match httpComplete acc2 with
      | .error e => .error e
      | .ok (some body) => .ok body
      | .ok none => readEncryptedLoop key fs (c + 1) acc2

/-- Specification-side view of the read loop once all tags check out:
fold plain chunks into the accumulator until a message completes. -/
def httpFold : List (List Nat) → List Nat → Except RErr (List Nat)
  | [], _ => .error .truncated
  | ch :: rest, acc =>
    match httpComplete (acc ++ ch) with
    | .error e => .error e
    | .ok (some body) => .ok body
    | .ok none => httpFold rest (acc ++ ch)

/-- A run of frames that all decrypt correctly under consecutive counters
without completing a message, ending in the given counter/accumulator
state (used to express reachability of a read-loop state). -/
def consumeFrames (key : HBytes) :
    List Frame → Nat → List Nat → Option (Nat × List Nat)
  | [], c, acc => some (c, acc)
  | f :: fs, c, acc =>
    match sealOpenBS key (nonce12 c) f.lenBytes f.box with
    | none => none
    | some pt =>
      match httpComplete (acc ++ pt) with
      | .ok none => consumeFrames key fs (c + 1) (acc ++ pt)
      | _ => none

/-- An HTTP-shaped plaintext message: a header block terminated by a blank
line, whose Content-Length value equals exactly the number of body bytes
that follow. -/
def httpWf (msg : List Nat) : Bool :=
  match findSeq crlfcrlf msg with
  | none => false
  | some i0 =>
    match clOfLines (splitCRLF (msg.take (i0 + 4))) with
    | .error _ => false
    | .ok cl => cl == (msg.length : Int) - (i0 + 4)

/- ## Pair-verify (`pair_verify`, lines 300-381) -/

/-- The accessory's M2 response after TLV decoding, restricted to the
entries the client reads: a possible Error entry (tag 7), the accessory
ephemeral public key (tag 3) and the encrypted sub-message (tag 5).
A missing entry makes the corresponding dict access raise `KeyError`. -/
structure M2V where
  err : Option HBytes
  pk : Option HBytes
  enc : Option SealedTV
deriving Repr

/-- One pair-verify transcript: the client's fresh ephemeral X25519
private key and the accessory's two responses. -/
structure PVEnv where
  ourPriv : Nat
  m2 : M2V
  m4err : Option HBytes
deriving Repr

/-- Failure modes of `pair_verify` (each one a raised Python exception). -/
inductive PVErr where
  | m2Error
  | missingField
  | decryptFailed
  | invalidSignature
  | fromHexFailed
  | badKeyBytes
  | m4Error
deriving DecidableEq, Repr

/-- The pair-verify handshake key: HKDF over the ECDH shared secret under
the `Pair-Verify-Encrypt` labels (lines 330-331). -/
def pvSessionKey (ourPriv : Nat) (serverPk : HBytes) : HBytes :=
  HBytes.hkdf (HBytes.xShared ourPriv serverPk)
    pairVerifyEncryptSalt pairVerifyEncryptInfo 32

/-- `pair_verify(session, pairing)` (lines 300-381), threading the
session object: every raised exception leaves the session untouched; on
success (and only then) the two direction keys are installed and both
counters reset to zero. -/
def pairVerify (env : PVEnv) (pairing : PairingRecord) (s : Session) :
    Except PVErr Unit × Session :=
  let ourPk := HBytes.pubX env.ourPriv
  match env.m2.err with
  | some _ => (.error .m2Error, s)
  | none =>
  match env.m2.pk with
  | none => (.error .missingField, s)
  | some serverPk =>
  match env.m2.enc with
  | none => (.error .missingField, s)
  | some encData =>
  let shared := HBytes.xShared env.ourPriv serverPk
  let sessionKey := pvSessionKey env.ourPriv serverPk
  match sealOpenTV sessionKey noncePV02 [] encData with
  | none => (.error .decryptFailed, s)
  | some subTlv =>
  match subTlv.lookup 1 with
  | none => (.error .missingField, s)
  | some serverId =>
  match subTlv.lookup 10 with
  | none => (.error .missingField, s)
  | some serverSig =>
  match fromHex pairing.AccessoryLTPK with
  | none => (.error .fromHexFailed, s)
  | some accessoryLtpk =>
  let serverInfo := HBytes.cat (HBytes.cat serverPk serverId) ourPk
  if edVerify accessoryLtpk serverSig serverInfo then
    match fromHex pairing.iOSDeviceLTSK with
    | none => (.error .fromHexFailed, s)
    | some skBytes =>
    match edSkOf skBytes with
    | none => (.error .badKeyBytes, s)
    | some iosSk =>
    match fromHex pairing.iOSDeviceLTPK with
    | none => (.error .fromHexFailed, s)
    | some _iosLtpk =>
    let iosId := pairing.iOSPairingId
    let iosInfo := HBytes.cat (HBytes.cat ourPk iosId) serverPk
    let iosSig := HBytes.sign iosSk iosInfo
    let _enc3 : SealedTV :=
      ⟨sessionKey, noncePV03, [], [(1, iosId), (10, iosSig)]⟩
    match env.m4err with
    | some _ => (.error .m4Error, s)
    | none =>
      (.ok (),
       { s with
         encryptKey := some (HBytes.hkdf shared controlSalt controlWriteInfo 32)
         decryptKey := some (HBytes.hkdf shared controlSalt controlReadInfo 32)
         sendCounter := 0
         recvCounter := 0 })
  else (.error .invalidSignature, s)

/- ## Pair-setup (`pair_setup`, lines 181-297) -/

/-- One pair-setup transcript: the accessory's M2, M4 and M6 responses
after TLV decoding (restricted to the entries the client reads) and the
client's fresh Ed25519 long-term private key. -/
structure PSEnv where
  m2err : Option HBytes
  m2salt : Option HBytes
  m2pk : Option HBytes
  m4err : Option HBytes
  m4proof : Option HBytes
  m6err : Option HBytes
  m6enc : Option SealedTV
  iosPriv : Nat
deriving Repr

/-- Failure modes of `pair_setup` (each one a raised Python exception). -/
inductive PSErr where
  | m2Error
  | m4Error
  | m6Error
  | srpProofFailed
  | missingField
  | decryptFailed
deriving DecidableEq, Repr

/-- The hard-coded controller identifier `"10:10:10:10:10:10"` (line 242). -/
def ctrlIdB : HBytes := HBytes.raw (asciiBytes "10:10:10:10:10:10")

/-- `pair_setup(session, pin)` (lines 181-297): SRP exchange with
abort-on-error at every step, then the encrypted M5/M6 long-term key
exchange, returning the pairing record on success. -/
def pairSetup (env : PSEnv) (pin : List Nat) (host : String) (port : Nat) :
    Except PSErr PairingRecord :=
  match env.m2err with
  | some _ => .error .m2Error
  | none =>
  match env.m2salt with
  | none => .error .missingField
  | some salt =>
  match env.m2pk with
  | none => .error .missingField
  | some serverPk =>
  let _clientPk := HBytes.srpClientPk pin salt serverPk
  let _clientProof := HBytes.srpClientProof pin salt serverPk
  match env.m4err with
  | some _ => .error .m4Error
  | none =>
  match env.m4proof with
  | none => .error .missingField
  | some serverProof =>
  if serverProof = HBytes.srpServerProof pin salt serverPk then
    let sessionKey := HBytes.srpSessionKey pin salt serverPk
    let iosPk := HBytes.pubEd env.iosPriv
    let iosX := HBytes.hkdf sessionKey pairSetupSignSalt pairSetupSignInfo 32
    let iosInfo := HBytes.cat (HBytes.cat iosX ctrlIdB) iosPk
    let iosSig := HBytes.sign env.iosPriv iosInfo
    let encKey :=
      HBytes.hkdf sessionKey pairSetupEncryptSalt pairSetupEncryptInfo 32
    let _m5enc : SealedTV :=
      ⟨encKey, noncePS05, [], [(1, ctrlIdB), (3, iosPk), (10, iosSig)]⟩
    match env.m6err with
    | some _ => .error .m6Error
    | none =>
    match env.m6enc with
    | none => .error .missingField
    | some encData =>
    match sealOpenTV encKey noncePS06 [] encData with
    | none => .error .decryptFailed
    | some m6sub =>
    match m6sub.lookup 1 with
    | none => .error .missingField
    | some accId =>
    match m6sub.lookup 3 with
    | none => .error .missingField
    | some accLtpk =>
    .ok
      { iOSDeviceLTSK := .hexed (.edSk env.iosPriv)
        iOSDeviceLTPK := .hexed iosPk
        iOSPairingId := ctrlIdB
        AccessoryLTPK := .hexed accLtpk
        AccessoryPairingID := accId
        AccessoryAddress := host
        AccessoryPort := port }
  else .error .srpProofFailed

/-- The key `f"{host}:{port}"` under which `cmd_pair` stores a pairing. -/
def pairingsKey (host : String) (port : Nat) : String :=
  host ++ ":" ++ toString port

/-- The effect of `cmd_pair(host, port, code)` (lines 384-394) on the
persisted pairings mapping: only when `pair_setup` succeeds is the new
record assigned under `f"{host}:{port}"` and the mapping saved; a raised
exception propagates before `save_pairings` runs, leaving the mapping as
it was. -/
def cmdPairStore (env : PSEnv) (pin : List Nat) (host : String) (port : Nat)
    (st : String → Option PairingRecord) : String → Option PairingRecord :=
  match pairSetup env pin host port with
  | .ok r => fun k => if k = pairingsKey host port then some r else st k
  | .error _ => st

/- ## Command layer (`_find_volume`, lines 473-483) -/

/-- One characteristic of the accessories document: `char.get("type", "")`,
`char.get("description", "")` and `char["iid"]`. -/
structure HChar where
  ctype : String
  description : String
  iid : Nat
deriving DecidableEq, Repr

/-- One service: `svc.get("characteristics", [])`. -/
structure HService where
  characteristics : List HChar
deriving DecidableEq, Repr

/-- One accessory: `acc["aid"]` and `acc.get("services", [])`. -/
structure HAccessory where
  aid : Nat
  services : List HService
deriving DecidableEq, Repr

/-- The parsed `/accessories` document: `data.get("accessories", [])`. -/
structure AccessoriesDoc where
  accessories : List HAccessory
deriving DecidableEq, Repr

/-- Inner loop of `_find_volume` over one service's characteristics:
the type-identifier substring test (`"119" in ctype`) first, the
lowercased-description test (`"volume" in description.lower()`) as
fallback. -/
def fvChars (aid : Nat) : List HChar → Option (Nat × Nat)
  | [] => none
  | c :: cs =>
    if hasSubL "119".data c.ctype.data then some (aid, c.iid)
    else if hasSubL "volume".data (c.description.data.map Char.toLower) then
      some (aid, c.iid)
    else fvChars aid cs

/-- Middle loop of `_find_volume` over an accessory's services. -/
def fvServices (aid : Nat) : List HService → Option (Nat × Nat)
  | [] => none
  | s :: ss =>
    match fvChars aid s.characteristics with
    | some r => some r
    | none => fvServices aid ss

/-- Outer loop of `_find_volume` over the accessories. -/
def fvAccs : List HAccessory → Option (Nat × Nat)
  | [] => none
  | a :: rest =>
    match fvServices a.aid a.services with
    | some r => some r
    | none => fvAccs rest

/-- `_find_volume(accessories_data)` (lines 473-483); `none` models the
Python return value `(None, None)`. -/
def findVolume (d : AccessoriesDoc) : Option (Nat × Nat) :=
  fvAccs d.accessories

/-- Specification-side flattening of the document into `(aid,
characteristic)` pairs in document order. -/
def flatChars (d : AccessoriesDoc) : List (Nat × HChar) :=
  d.accessories.flatMap fun a =>
    a.services.flatMap fun s =>
      s.characteristics.map fun c => (a.aid, c)

/-- Specification-side lookup predicate: type contains `"119"`, or the
lowercased description contains `"volume"`. -/
def volMatch (c : HChar) : Bool :=
  hasSubL "119".data c.ctype.data ||
    hasSubL "volume".data (c.description.data.map Char.toLower)

/- ## CLI manager (`binary_manager.py`, `CLIAirplayManager`) -/

/-- Python `round` on an exact value: nearest integer, ties to even. -/
def pyRound (q : ℚ) : Int :=
  if q - ⌊q⌋ < 1 / 2 then ⌊q⌋
  else if 1 / 2 < q - ⌊q⌋ then ⌊q⌋ + 1
  else if ⌊q⌋ % 2 = 0 then ⌊q⌋ else ⌊q⌋ + 1

/-- The integer volume sent by `CLIAirplayManager.set_volume` (lines
215-216): `int(round(volume * 100))` clamped into `[0, 100]`. -/
def setVolumeInt (volume : ℚ) : Int :=
  max 0 (min 100 (pyRound (volume * 100)))

/-- The argument vector of the helper command issued by `set_volume`
(line 217). -/
def setVolumeArgs (volume : ℚ) : List String :=
  ["volume", "set", toString (setVolumeInt volume)]

/-- Python `str.strip()` on a string. -/
def pyStripS (s : String) : String :=
  ⟨(((s.data.dropWhile fun c => isSpaceB c.toNat).reverse.dropWhile
      fun c => isSpaceB c.toNat)).reverse⟩

/-- Python `int(s)` on a string: strip of surrounding whitespace is done
by the caller; optional sign then ASCII decimal digits. -/
def pyParseIntS (s : String) : Option Int :=
  parseIntB (s.data.map Char.toNat)

/-- The error raised by `get_volume` on an unparsable reply. -/
inductive CLIErr where
  | invalidVolume
deriving DecidableEq, Repr

/-- `CLIAirplayManager.get_volume` (lines 219-234) applied to the helper
command's stdout: parse `int(result.strip())`, return
`max(0.0, min(1.0, vol / 100.0))`, and raise `CLIAirplayConnectionError`
when the parse fails. -/
def getVolumeOfReply (reply : String) : Except CLIErr ℚ :=
  match pyParseIntS (pyStripS reply) with
  | none => .error .invalidVolume
  | some v => .ok (max 0 (min 1 ((v : ℚ) / 100)))

/- ## Helper lemmas -/

deriving instance DecidableEq for Except

theorem chunksF_fuel :
    ∀ (f1 f2 : Nat) (data : List Nat), data.length ≤ f1 → data.length ≤ f2 →
      chunksF f1 data = chunksF f2 data := by
  intro f1
  induction f1 with
  | zero =>
    intro f2 data h1 h2
    have hd : data = [] := List.eq_nil_of_length_eq_zero (Nat.le_zero.mp h1)
    subst hd
    cases f2 <;> rfl
  | succ f1 ih =>
    intro f2 data h1 h2
    cases data with
    | nil => cases f2 <;> rfl
    | cons x rest =>
      cases f2 with
      | zero => simp at h2
      | succ f2 =>
        show (x :: rest).take 1024 :: chunksF f1 ((x :: rest).drop 1024) =
          (x :: rest).take 1024 :: chunksF f2 ((x :: rest).drop 1024)
        congr 1
        apply ih
        · simp only [List.length_drop, List.length_cons] at *
          omega
        · simp only [List.length_drop, List.length_cons] at *
          omega

theorem chunks1024_cons (data : List Nat) (h : data ≠ []) :
    chunks1024 data = data.take 1024 :: chunks1024 (data.drop 1024) := by
  cases data with
  | nil => exact absurd rfl h
  | cons x rest =>
    show (x :: rest).take 1024 :: chunksF rest.length ((x :: rest).drop 1024)
      = (x :: rest).take 1024 :: chunksF ((x :: rest).drop 1024).length
          ((x :: rest).drop 1024)
    congr 1
    apply chunksF_fuel
    · simp only [List.length_drop, List.length_cons]
      omega
    · exact le_rfl

theorem encryptF_fuel (key : HBytes) :
    ∀ (f1 f2 : Nat) (data : List Nat) (c : Nat),
      data.length ≤ f1 → data.length ≤ f2 →
      encryptF key f1 data c = encryptF key f2 data c := by
  intro f1
  induction f1 with
  | zero =>
    intro f2 data c h1 h2
    have hd : data = [] := List.eq_nil_of_length_eq_zero (Nat.le_zero.mp h1)
    subst hd
    cases f2 <;> rfl
  | succ f1 ih =>
    intro f2 data c h1 h2
    cases data with
    | nil => cases f2 <;> rfl
    | cons x rest =>
      cases f2 with
      | zero => simp at h2
      | succ f2 =>
        show (⟨le2 ((x :: rest).take 1024).length,
            ⟨key, nonce12 c, le2 ((x :: rest).take 1024).length,
              (x :: rest).take 1024⟩⟩ ::
              (encryptF key f1 ((x :: rest).drop 1024) (c + 1)).1,
            (encryptF key f1 ((x :: rest).drop 1024) (c + 1)).2) =
          (⟨le2 ((x :: rest).take 1024).length,
            ⟨key, nonce12 c, le2 ((x :: rest).take 1024).length,
              (x :: rest).take 1024⟩⟩ ::
              (encryptF key f2 ((x :: rest).drop 1024) (c + 1)).1,
            (encryptF key f2 ((x :: rest).drop 1024) (c + 1)).2)
        have heq : encryptF key f1 ((x :: rest).drop 1024) (c + 1) =
            encryptF key f2 ((x :: rest).drop 1024) (c + 1) := by
          apply ih
          · simp only [List.length_drop, List.length_cons] at *
            omega
          · simp only [List.length_drop, List.length_cons] at *
            omega
        rw [heq]

theorem encryptChunks_cons (key : HBytes) (data : List Nat) (c : Nat)
    (h : data ≠ []) :
    encryptChunks key data c =
      (⟨le2 (data.take 1024).length,
          ⟨key, nonce12 c, le2 (data.take 1024).length, data.take 1024⟩⟩ ::
          (encryptChunks key (data.drop 1024) (c + 1)).1,
        (encryptChunks key (data.drop 1024) (c + 1)).2) := by
  cases data with
  | nil => exact absurd rfl h
  | cons x rest =>
    show (⟨le2 ((x :: rest).take 1024).length,
        ⟨key, nonce12 c, le2 ((x :: rest).take 1024).length,
          (x :: rest).take 1024⟩⟩ ::
          (encryptF key rest.length ((x :: rest).drop 1024) (c + 1)).1,
        (encryptF key rest.length ((x :: rest).drop 1024) (c + 1)).2) = _
    have heq : encryptF key rest.length ((x :: rest).drop 1024) (c + 1) =
        encryptF key ((x :: rest).drop 1024).length ((x :: rest).drop 1024)
          (c + 1) := by
      apply encryptF_fuel
      · simp only [List.length_drop, List.length_cons]
        omega
      · exact le_rfl
    rw [heq]
    rfl


theorem findQ_append {α : Type} (p : α → Bool) (l1 l2 : List α) :
    (l1 ++ l2).find? p =
      match l1.find? p with
      | some x => some x
      | none => l2.find? p := by
  induction l1 with
  | nil => simp
  | cons x xs ih =>
    by_cases hx : p x = true
    · simp [List.find?, hx]
    · simp only [Bool.not_eq_true] at hx
      simp [List.find?, hx, ih]

theorem findQ_map {α β : Type} (f : α → β) (p : β → Bool) (l : List α) :
    (l.map f).find? p = (l.find? fun a => p (f a)).map f := by
  induction l with
  | nil => rfl
  | cons x xs ih =>
    by_cases hx : p (f x) = true
    · simp [List.find?, hx]
    · simp only [Bool.not_eq_true] at hx
      simp [List.find?, hx, ih]

theorem fvChars_spec (aid : Nat) (cs : List HChar) :
    fvChars aid cs = (cs.find? volMatch).map fun c => (aid, c.iid) := by
  induction cs with
  | nil => rfl
  | cons c cs ih =>
    cases h1 : hasSubL "119".data c.ctype.data <;>
      cases h2 : hasSubL "volume".data (c.description.data.map Char.toLower) <;>
        simp [fvChars, volMatch, List.find?, h1, h2, ih]

theorem fvServices_spec (aid : Nat) (ss : List HService) :
    fvServices aid ss =
      ((ss.flatMap fun s => s.characteristics).find? volMatch).map
        fun c => (aid, c.iid) := by
  induction ss with
  | nil => rfl
  | cons s ss ih =>
    rw [fvServices, fvChars_spec, List.flatMap_cons, findQ_append]
    cases h : s.characteristics.find? volMatch <;> simp [h, ih]

theorem fvAccs_spec (las : List HAccessory) :
    fvAccs las =
      ((las.flatMap fun a =>
          a.services.flatMap fun s =>
            s.characteristics.map fun c => (a.aid, c)).find?
        (fun p => volMatch p.2)).map fun p => (p.1, p.2.iid) := by
  induction las with
  | nil => rfl
  | cons a las ih =>
    rw [fvAccs, fvServices_spec, List.flatMap_cons, findQ_append]
    have hmap :
        (a.services.flatMap fun s =>
            s.characteristics.map fun c => (a.aid, c)) =
          (a.services.flatMap fun s => s.characteristics).map
            fun c => (a.aid, c) := by
      simp [List.map_flatMap]
    rw [hmap, findQ_map]
    cases h : (a.services.flatMap fun s => s.characteristics).find? volMatch <;>
      simp [h, ih]

/- ## Claim theorems -/

/-- C9: `_find_volume` scans accessories, services and characteristics in
document order and returns the `(aid, iid)` of the first characteristic
matched by the lookup predicate (type contains `"119"`, else lowercased
description contains `"volume"`); with no match it returns `(None, None)`
(modelled as `none`). -/
theorem find_volume_first_match (d : AccessoriesDoc) :
    findVolume d =
      ((flatChars d).find? fun p => volMatch p.2).map
        fun p => (p.1, p.2.iid) := by
  rw [findVolume, flatChars, fvAccs_spec]

/-- C5: the five fixed HKDF (salt, info) label pairs used across the
protocol — pair-setup signing material, pair-setup M5/M6 encryption key,
pair-verify handshake key, and the two per-direction session keys — are
pairwise distinct. -/
theorem hkdf_label_pairs_distinct : hkdfLabelPairs.Nodup := by decide

/-- C10: `CLIAirplayManager.set_volume` sends
`max(0, min(100, round(volume * 100)))` — always an integer in `[0, 100]`,
so out-of-range inputs are clamped, never rejected — and symmetrically
`get_volume` clamps the parsed reply divided by 100 into `[0, 1]`,
raising `CLIAirplayConnectionError` when the reply does not parse as an
integer.  (Real arithmetic idealised over `ℚ`.) -/
theorem cli_volume_clamp :
    (∀ v : ℚ,
        setVolumeArgs v =
          ["volume", "set", toString (max 0 (min 100 (pyRound (v * 100))))] ∧
        0 ≤ setVolumeInt v ∧ setVolumeInt v ≤ 100) ∧
    (∀ reply : String, ∀ n : Int,
        pyParseIntS (pyStripS reply) = some n →
          getVolumeOfReply reply = .ok (max 0 (min 1 ((n : ℚ) / 100))) ∧
          ∀ q : ℚ, getVolumeOfReply reply = .ok q → 0 ≤ q ∧ q ≤ 1) ∧
    (∀ reply : String,
        pyParseIntS (pyStripS reply) = none →
          getVolumeOfReply reply = .error .invalidVolume) := by
  refine ⟨fun v => ⟨rfl, le_max_left _ _, max_le (by norm_num) (min_le_left _ _)⟩,
    fun reply n h => ?_, fun reply h => ?_⟩
  · unfold getVolumeOfReply
    rw [h]
    refine ⟨rfl, fun q hq => ?_⟩
    simp only at hq
    cases hq
    exact ⟨le_max_left _ _, max_le (by norm_num) (min_le_left _ _)⟩
  · unfold getVolumeOfReply
    rw [h]

/-- Witness for C10 at concrete inputs: the reply `"42"` parses and is
scaled and clamped, the reply `"abc"` raises. -/
theorem cli_volume_clamp_w :
    (pyParseIntS (pyStripS "42") = some 42 ∧
      getVolumeOfReply "42" = .ok (max 0 (min 1 ((42 : ℚ) / 100)))) ∧
    (pyParseIntS (pyStripS "abc") = none ∧
      getVolumeOfReply "abc" = .error .invalidVolume) :=
  ⟨⟨by decide, (cli_volume_clamp.2.1 "42" 42 (by decide)).1⟩,
   ⟨by decide, cli_volume_clamp.2.2 "abc" (by decide)⟩⟩

theorem encryptChunks_eq_spec (key : HBytes) :
    ∀ (n : Nat) (data : List Nat) (c0 : Nat), data.length ≤ n →
      encryptChunks key data c0 =
        (frameSpec key c0 (chunks1024 data),
         c0 + (data.length + 1023) / 1024) := by
  intro n
  induction n with
  | zero =>
    intro data c0 h
    have hd : data = [] := List.eq_nil_of_length_eq_zero (Nat.le_zero.mp h)
    subst hd
    rfl
  | succ n ih =>
    intro data c0 h
    by_cases hd : data = []
    · subst hd
      rfl
    · have hlen : 0 < data.length := List.length_pos.mpr hd
      rw [encryptChunks_cons key data c0 hd, chunks1024_cons data hd]
      rw [ih (data.drop 1024) (c0 + 1) (by simp only [List.length_drop]; omega)]
      refine Prod.ext ?_ ?_
      · simp [frameSpec]
      · simp only [List.length_drop]
        omega

theorem chunks1024_join :
    ∀ (n : Nat) (data : List Nat), data.length ≤ n →
      (chunks1024 data).flatten = data := by
  intro n
  induction n with
  | zero =>
    intro data h
    have hd : data = [] := List.eq_nil_of_length_eq_zero (Nat.le_zero.mp h)
    subst hd
    rfl
  | succ n ih =>
    intro data h
    by_cases hd : data = []
    · subst hd; rfl
    · have hlen : 0 < data.length := List.length_pos.mpr hd
      rw [chunks1024_cons data hd]
      simp only [List.flatten_cons]
      rw [ih (data.drop 1024) (by simp only [List.length_drop]; omega)]
      exact List.take_append_drop 1024 data

theorem chunks1024_sizes :
    ∀ (n : Nat) (data : List Nat), data.length ≤ n →
      ((chunks1024 data).all fun ch => decide (ch.length ≤ 1024) && !ch.isEmpty)
        = true := by
  intro n
  induction n with
  | zero =>
    intro data h
    have hd : data = [] := List.eq_nil_of_length_eq_zero (Nat.le_zero.mp h)
    subst hd; rfl
  | succ n ih =>
    intro data h
    by_cases hd : data = []
    · subst hd; rfl
    · have hlen : 0 < data.length := List.length_pos.mpr hd
      rw [chunks1024_cons data hd]
      simp only [List.all_cons]
      refine Bool.and_eq_true_iff.mpr ⟨?_, ih _ (by simp only [List.length_drop]; omega)⟩
      have h1 : (data.take 1024).length ≤ 1024 := by
        simp [List.length_take]
      have h2 : data.take 1024 ≠ [] := by
        intro hc
        have h3 : (data.take 1024).length = 0 := by rw [hc]; rfl
        rw [List.length_take] at h3
        omega
      simp [h1, List.isEmpty_iff, h2]

theorem frameSpec_get (key : HBytes) :
    ∀ (cs : List (List Nat)) (c0 i : Nat),
      (frameSpec key c0 cs)[i]? =
        cs[i]?.map fun ch =>
          (⟨le2 ch.length, ⟨key, nonce12 (c0 + i), le2 ch.length, ch⟩⟩ : Frame) := by
  intro cs
  induction cs with
  | nil => intro c0 i; simp [frameSpec]
  | cons ch cs ih =>
    intro c0 i
    cases i with
    | zero => simp [frameSpec]
    | succ i =>
      simp only [frameSpec, List.getElem?_cons_succ]
      rw [ih (c0 + 1) i]
      have : c0 + 1 + i = c0 + (i + 1) := by omega
      rw [this]

/-- C2: `_encrypt` splits the data into consecutive chunks of at most
1024 plaintext bytes (nonempty, concatenating back to the input); the
`i`-th chunk is emitted as its 2-byte little-endian length prefix (also
the AEAD associated data) followed by its ciphertext under the send key
with nonce `counter + i` encoded as 8 little-endian bytes zero-padded to
12; and one call advances the send counter by exactly
`ceil(len(data)/1024)`. -/
theorem hap_encrypt_chunk_layout (key : HBytes) (data : List Nat) (c0 : Nat) :
    (encryptChunks key data c0).2 = c0 + (data.length + 1023) / 1024 ∧
    (chunks1024 data).flatten = data ∧
    ((chunks1024 data).all fun ch => decide (ch.length ≤ 1024) && !ch.isEmpty)
      = true ∧
    ∀ i : Nat,
      (encryptChunks key data c0).1[i]? =
        (chunks1024 data)[i]?.map fun ch =>
          (⟨le2 ch.length, ⟨key, nonce12 (c0 + i), le2 ch.length, ch⟩⟩ : Frame) := by
  have hspec := encryptChunks_eq_spec key data.length data c0 le_rfl
  refine ⟨by rw [hspec], chunks1024_join data.length data le_rfl,
    chunks1024_sizes data.length data le_rfl, fun i => ?_⟩
  rw [hspec]
  exact frameSpec_get key (chunks1024 data) c0 i


/-- C1: in `pair_verify`, whenever the run reaches the signature check —
the accessory's Ed25519 signature over (accessory ephemeral public key ‖
accessory identifier ‖ client ephemeral public key), checked against the
long-term public key stored in the PairingRecord — and that check fails,
`pair_verify` raises `InvalidSignature` and the session is left exactly
as it was: no session keys are produced (in particular `encrypt_key` and
`decrypt_key` stay `None`), for every possible M4 response, so nothing
decrypted from M2 is ever trusted past a failed signature. -/
theorem pair_verify_signature_enforcement
    (env : PVEnv) (pairing : PairingRecord) (s : Session)
    (serverPk : HBytes) (encData : SealedTV) (subTlv : List (Nat × HBytes))
    (serverId serverSig ltpk : HBytes)
    (h1 : env.m2.err = none)
    (h2 : env.m2.pk = some serverPk)
    (h3 : env.m2.enc = some encData)
    (h4 : sealOpenTV (pvSessionKey env.ourPriv serverPk) noncePV02 [] encData
            = some subTlv)
    (h5 : subTlv.lookup 1 = some serverId)
    (h6 : subTlv.lookup 10 = some serverSig)
    (h7 : fromHex pairing.AccessoryLTPK = some ltpk)
    (h8 : edVerify ltpk serverSig
            (HBytes.cat (HBytes.cat serverPk serverId) (HBytes.pubX env.ourPriv))
            = false) :
    pairVerify env pairing s = (.error .invalidSignature, s) := by
  unfold pairVerify
  simp only [h1, h2, h3, h4, h5, h6, h7, h8, Bool.false_eq_true, if_false]

/-- C7: whenever `pair_verify` returns successfully, the resulting session
has both counters equal to zero and its send/receive keys are the
HKDF-SHA512 derivations of the ECDH shared secret under `Control-Salt`
with `Control-Write-Encryption-Key` (send) and with
`Control-Read-Encryption-Key` (receive) — two distinct label pairs. -/
theorem pair_verify_session_init
    (env : PVEnv) (pairing : PairingRecord) (s s' : Session)
    (h : pairVerify env pairing s = (.ok (), s')) :
    ∃ serverPk, env.m2.pk = some serverPk ∧
      s'.sendCounter = 0 ∧ s'.recvCounter = 0 ∧
      s'.encryptKey =
        some (HBytes.hkdf (HBytes.xShared env.ourPriv serverPk)
          controlSalt controlWriteInfo 32) ∧
      s'.decryptKey =
        some (HBytes.hkdf (HBytes.xShared env.ourPriv serverPk)
          controlSalt controlReadInfo 32) ∧
      (controlSalt, controlWriteInfo) ≠ (controlSalt, controlReadInfo) := by
  unfold pairVerify at h
  simp only [] at h
  repeat' split at h
  all_goals try (refine absurd (congrArg Prod.fst h) ?_; simp; done)
  rw [Prod.mk.injEq] at h
  obtain ⟨-, h10⟩ := h
  subst h10
  refine ⟨_, ?_, rfl, rfl, rfl, rfl, by decide⟩
  assumption

/-- Concrete failing pair-verify transcript: the ECDH exchange is valid
and the M2 sub-message decrypts, but the enclosed signature is not one
made by the accessory's long-term key. -/
def pvEnvBad : PVEnv :=
  { ourPriv := 1
    m2 :=
      { err := none
        pk := some (.raw [2])
        enc := some
          ⟨pvSessionKey 1 (.raw [2]), noncePV02, [],
            [(1, .raw [3]), (10, .raw [0])]⟩ }
    m4err := none }

/-- The pairing record used by the pair-verify witnesses. -/
def recV : PairingRecord :=
  { iOSDeviceLTSK := .hexed (.edSk 7)
    iOSDeviceLTPK := .hexed (.pubEd 7)
    iOSPairingId := .raw (asciiBytes "10:10:10:10:10:10")
    AccessoryLTPK := .hexed (.pubEd 9)
    AccessoryPairingID := .raw [3]
    AccessoryAddress := "h"
    AccessoryPort := 1 }

/-- Witness for C1: on that transcript the signature check fails,
`pair_verify` raises `InvalidSignature` and the session is untouched. -/
theorem pair_verify_signature_enforcement_w :
    edVerify (HBytes.pubEd 9) (.raw [0])
        (HBytes.cat (HBytes.cat (.raw [2]) (.raw [3])) (HBytes.pubX 1)) = false ∧
    pairVerify pvEnvBad recV initSession =
      (.error .invalidSignature, initSession) :=
  ⟨by decide,
   pair_verify_signature_enforcement pvEnvBad recV initSession
     (.raw [2]) ⟨pvSessionKey 1 (.raw [2]), noncePV02, [],
       [(1, .raw [3]), (10, .raw [0])]⟩
     [(1, .raw [3]), (10, .raw [0])] (.raw [3]) (.raw [0]) (.pubEd 9)
     rfl rfl rfl (by decide) (by decide) (by decide) rfl (by decide)⟩

/-- Concrete successful pair-verify transcript: same as `pvEnvBad` but the
signature is genuinely the accessory's, over (server pk ‖ id ‖ our pk). -/
def pvEnvOk : PVEnv :=
  { ourPriv := 1
    m2 :=
      { err := none
        pk := some (.raw [2])
        enc := some
          ⟨pvSessionKey 1 (.raw [2]), noncePV02, [],
            [(1, .raw [3]),
             (10, .sign 9 (.cat (.cat (.raw [2]) (.raw [3])) (.pubX 1)))]⟩ }
    m4err := none }

/-- Witness for C7: the succeeding run produces exactly the two
per-direction HKDF keys and zeroed counters. -/
theorem pair_verify_session_init_w :
    pairVerify pvEnvOk recV initSession =
      (.ok (),
       { encryptKey :=
           some (HBytes.hkdf (HBytes.xShared 1 (.raw [2]))
             controlSalt controlWriteInfo 32)
         decryptKey :=
           some (HBytes.hkdf (HBytes.xShared 1 (.raw [2]))
             controlSalt controlReadInfo 32)
         sendCounter := 0
         recvCounter := 0 }) ∧
    ∃ serverPk, pvEnvOk.m2.pk = some serverPk ∧
      (0 : Nat) = 0 ∧ (0 : Nat) = 0 ∧
      (some (HBytes.hkdf (HBytes.xShared 1 (.raw [2]))
          controlSalt controlWriteInfo 32) : Option HBytes) =
        some (HBytes.hkdf (HBytes.xShared pvEnvOk.ourPriv serverPk)
          controlSalt controlWriteInfo 32) ∧
      (some (HBytes.hkdf (HBytes.xShared 1 (.raw [2]))
          controlSalt controlReadInfo 32) : Option HBytes) =
        some (HBytes.hkdf (HBytes.xShared pvEnvOk.ourPriv serverPk)
          controlSalt controlReadInfo 32) ∧
      (controlSalt, controlWriteInfo) ≠ (controlSalt, controlReadInfo) := by
  refine ⟨rfl, ?_⟩
  have h := pair_verify_session_init pvEnvOk recV initSession
    { encryptKey :=
        some (HBytes.hkdf (HBytes.xShared 1 (.raw [2]))
          controlSalt controlWriteInfo 32)
      decryptKey :=
        some (HBytes.hkdf (HBytes.xShared 1 (.raw [2]))
          controlSalt controlReadInfo 32)
      sendCounter := 0
      recvCounter := 0 } rfl
  obtain ⟨pk, hpk, -, -, he, hd, hne⟩ := h
  exact ⟨pk, hpk, rfl, rfl, he, hd, hne⟩

theorem pairSetup_ok_inversion (env : PSEnv) (pin : List Nat) (host : String)
    (port : Nat) (r : PairingRecord)
    (h : pairSetup env pin host port = .ok r) :
    env.m2err = none ∧ env.m4err = none ∧ env.m6err = none ∧
    (∀ pr salt spk, env.m2salt = some salt → env.m2pk = some spk →
        env.m4proof = some pr → pr = HBytes.srpServerProof pin salt spk) ∧
    r.iOSDeviceLTSK = .hexed (.edSk env.iosPriv) ∧
    r.iOSDeviceLTPK = .hexed (.pubEd env.iosPriv) ∧
    (∃ ltpk, r.AccessoryLTPK = .hexed ltpk) ∧
    r.AccessoryAddress = host ∧ r.AccessoryPort = port := by
  unfold pairSetup at h
  simp only [] at h
  repeat' split at h
  all_goals try (refine absurd h ?_; simp; done)
  rename_i x9 hm2e x8 saltv hsalt x7 spkv hspk x6 hm4e x5 prv hproof hpf x4 hm6e x3 encD henc x2 subv hseal x1 accIdv hid x0 accPkv hltpk
  obtain rfl := Except.ok.inj h
  refine ⟨hm2e, hm4e, hm6e, fun pr salt spk hs hp hq => ?_, rfl, rfl,
    ⟨_, rfl⟩, rfl, rfl⟩
  rw [hsalt] at hs
  rw [hspk] at hp
  rw [hproof] at hq
  obtain rfl := Option.some.inj hs
  obtain rfl := Option.some.inj hp
  obtain rfl := Option.some.inj hq
  exact hpf

/-- C4: in `pair_setup`, an Error TLV entry in the M2, M4 or M6 response,
or a server SRP proof that fails verification, makes the run raise: no
PairingRecord is produced, and `cmd_pair` persists nothing — the stored
pairings mapping is exactly what it was. -/
theorem pair_setup_abort_on_error (env : PSEnv) (pin : List Nat)
    (host : String) (port : Nat) (st : String → Option PairingRecord)
    (h : env.m2err ≠ none ∨ env.m4err ≠ none ∨ env.m6err ≠ none ∨
      (∃ pr salt spk, env.m2salt = some salt ∧ env.m2pk = some spk ∧
        env.m4proof = some pr ∧ pr ≠ HBytes.srpServerProof pin salt spk)) :
    (∃ e, pairSetup env pin host port = .error e) ∧
    cmdPairStore env pin host port st = st := by
  rcases hres : pairSetup env pin host port with e | r
  · exact ⟨⟨e, rfl⟩, by unfold cmdPairStore; rw [hres]⟩
  · exfalso
    obtain ⟨h2, h4, h6, hpf, -⟩ := pairSetup_ok_inversion env pin host port r hres
    rcases h with h | h | h | ⟨pr, salt, spk, hs, hp, hq, hne⟩
    · exact h h2
    · exact h h4
    · exact h h6
    · exact hne (hpf pr salt spk hs hp hq)

/-- A pair-setup transcript whose M2 carries an Error TLV entry. -/
def psEnvErr : PSEnv :=
  { m2err := some (.raw [6]), m2salt := none, m2pk := none, m4err := none
    m4proof := none, m6err := none, m6enc := none, iosPriv := 3 }

/-- Witness for C4: with an Error entry in M2 the attempt raises and the
pairings mapping is untouched. -/
theorem pair_setup_abort_on_error_w :
    (∃ e, pairSetup psEnvErr [1] "h" 5 = .error e) ∧
    cmdPairStore psEnvErr [1] "h" 5 (fun _ => none) = fun _ => none :=
  pair_setup_abort_on_error psEnvErr [1] "h" 5 (fun _ => none)
    (Or.inl (by decide))

/-- C8: a successful `cmd_pair(host, port, code)` stores the complete new
PairingRecord — local long-term private and public keys hex-encoded, the
local identifier, the accessory's long-term public key hex-encoded, its
identifier, address and port — under the key `"host:port"` as a wholesale
replacement, and leaves every other key of the mapping unchanged. -/
theorem cmd_pair_wholesale_store (env : PSEnv) (pin : List Nat)
    (host : String) (port : Nat) (st : String → Option PairingRecord)
    (r : PairingRecord)
    (h : pairSetup env pin host port = .ok r) :
    cmdPairStore env pin host port st (pairingsKey host port) = some r ∧
    (∀ k, k ≠ pairingsKey host port →
        cmdPairStore env pin host port st k = st k) ∧
    r.iOSDeviceLTSK = .hexed (.edSk env.iosPriv) ∧
    r.iOSDeviceLTPK = .hexed (.pubEd env.iosPriv) ∧
    (∃ ltpk, r.AccessoryLTPK = .hexed ltpk) ∧
    r.AccessoryAddress = host ∧ r.AccessoryPort = port := by
  obtain ⟨-, -, -, -, hf⟩ := pairSetup_ok_inversion env pin host port r h
  unfold cmdPairStore
  rw [h]
  exact ⟨if_pos rfl, fun k hk => if_neg hk, hf⟩

/-- A complete successful pair-setup transcript. -/
def psEnvOk : PSEnv :=
  { m2err := none
    m2salt := some (.raw [2])
    m2pk := some (.raw [3])
    m4err := none
    m4proof := some (.srpServerProof [1] (.raw [2]) (.raw [3]))
    m6err := none
    m6enc := some
      ⟨HBytes.hkdf (.srpSessionKey [1] (.raw [2]) (.raw [3]))
          pairSetupEncryptSalt pairSetupEncryptInfo 32,
        noncePS06, [], [(1, .raw [9]), (3, .raw [8])]⟩
    iosPriv := 4 }

/-- The record produced by the successful transcript `psEnvOk`. -/
def recS : PairingRecord :=
  { iOSDeviceLTSK := .hexed (.edSk 4)
    iOSDeviceLTPK := .hexed (.pubEd 4)
    iOSPairingId := ctrlIdB
    AccessoryLTPK := .hexed (.raw [8])
    AccessoryPairingID := .raw [9]
    AccessoryAddress := "h"
    AccessoryPort := 2 }

/-- Witness for C8: the successful pairing is stored whole under
`"h:2"` and an unrelated key is untouched. -/
theorem cmd_pair_wholesale_store_w :
    pairSetup psEnvOk [1] "h" 2 = .ok recS ∧
    cmdPairStore psEnvOk [1] "h" 2 (fun _ => none) (pairingsKey "h" 2)
      = some recS ∧
    cmdPairStore psEnvOk [1] "h" 2 (fun _ => none) "x:9" = none := by
  have h := cmd_pair_wholesale_store psEnvOk [1] "h" 2 (fun _ => none) recS rfl
  exact ⟨rfl, h.1, h.2.1 "x:9" (by decide)⟩

theorem leadsWith_take (pat : List Nat) :
    ∀ (xs : List Nat) (m : Nat),
      leadsWith pat (xs.take m) =
        (leadsWith pat xs && decide (pat.length ≤ m)) := by
  induction pat with
  | nil => intro xs m; simp [leadsWith]
  | cons p ps ih =>
    intro xs m
    cases m with
    | zero =>
      cases xs <;> simp [leadsWith]
    | succ m =>
      cases xs with
      | nil => simp [leadsWith]
      | cons x xs =>
        simp only [List.take_succ_cons, leadsWith, ih xs m, List.length_cons,
          Nat.succ_le_succ_iff]
        cases p == x <;> simp

theorem leadsWith_length {pat l : List Nat} (h : leadsWith pat l = true) :
    pat.length ≤ l.length := by
  induction pat generalizing l with
  | nil => simp
  | cons p ps ih =>
    cases l with
    | nil => simp [leadsWith] at h
    | cons x xs =>
      simp only [leadsWith, Bool.and_eq_true] at h
      simpa [Nat.succ_le_succ_iff] using ih h.2

theorem findSeq_bound {pat l : List Nat} {i : Nat}
    (h : findSeq pat l = some i) : i + pat.length ≤ l.length := by
  induction l generalizing i with
  | nil =>
    rw [findSeq] at h
    split at h
    · rename_i hw
      cases h
      have h2 := leadsWith_length hw
      simp only [List.length_nil] at h2 ⊢
      omega
    · cases h
  | cons x xs ih =>
    rw [findSeq] at h
    split at h
    · rename_i hw
      cases h
      simpa using leadsWith_length hw
    · cases hfs : findSeq pat xs with
      | none => rw [hfs] at h; cases h
      | some j =>
        rw [hfs] at h
        cases h
        have := ih hfs
        simp only [List.length_cons]
        omega

theorem findSeq_take (pat : List Nat) (hpat : pat ≠ []) :
    ∀ (l : List Nat) (k : Nat),
      findSeq pat (l.take k) =
        match findSeq pat l with
        | some i => if i + pat.length ≤ k then some i else none
        | none => none := by
  have hnil : leadsWith pat ([] : List Nat) = false := by
    cases pat with
    | nil => exact absurd rfl hpat
    | cons p ps => rfl
  have hplen : 0 < pat.length := List.length_pos.mpr hpat
  intro l
  induction l with
  | nil =>
    intro k
    simp [findSeq, hnil]
  | cons x xs ih =>
    intro k
    cases k with
    | zero =>
      rw [List.take_zero]
      cases hfs : findSeq pat (x :: xs) with
      | none => simp [findSeq, hnil]
      | some i =>
        have hni : ¬ (i + pat.length ≤ 0) := by omega
        simp [findSeq, hnil, hni]
    | succ k =>
      have htk : (x :: xs).take (k + 1) = x :: xs.take k := rfl
      rw [htk]
      have hl : leadsWith pat (x :: xs.take k) =
          (leadsWith pat (x :: xs) && decide (pat.length ≤ k + 1)) := by
        have h3 := leadsWith_take pat (x :: xs) (k + 1)
        rwa [htk] at h3
      cases hw : leadsWith pat (x :: xs) with
      | true =>
        rw [hw] at hl
        by_cases hle : pat.length ≤ k + 1
        · have hl2 : leadsWith pat (x :: xs.take k) = true := by
            simp [hl, hle]
          have h0 : 0 + pat.length ≤ k + 1 := by omega
          simp only [findSeq, hl2, hw, if_true, h0]
          try simp [hle]
        · have hl2 : leadsWith pat (x :: xs.take k) = false := by
            simp [hl, hle]
          have h0 : ¬ (0 + pat.length ≤ k + 1) := by omega
          simp only [findSeq, hl2, hw, Bool.false_eq_true, if_false, if_true,
            h0]
          rw [ih k]
          cases hfs : findSeq pat xs with
          | none => simp
          | some j =>
            have hnj : ¬ (j + pat.length ≤ k) := by omega
            simp [hnj]
      | false =>
        have hl2 : leadsWith pat (x :: xs.take k) = false := by
          simp [hl, hw]
        simp only [findSeq, hl2, hw, Bool.false_eq_true, if_false]
        rw [ih k]
        cases hfs : findSeq pat xs with
        | none => simp [hfs]
        | some j =>
          by_cases hj : j + pat.length ≤ k
          · have h2 : j + 1 + pat.length ≤ k + 1 := by omega
            simp [hfs, hj, h2]
          · have h2 : ¬ (j + 1 + pat.length ≤ k + 1) := by omega
            simp [hfs, hj, h2]

theorem httpWf_parts {msg : List Nat} (h : httpWf msg = true) :
    ∃ i0 cl, findSeq crlfcrlf msg = some i0 ∧
      clOfLines (splitCRLF (msg.take (i0 + 4))) = .ok cl ∧
      cl = (msg.length : Int) - (i0 + 4) := by
  unfold httpWf at h
  split at h
  · cases h
  · rename_i i0 heq
    split at h
    · cases h
    · rename_i cl hcl
      exact ⟨i0, cl, heq, hcl, by simpa using h⟩

theorem httpComplete_take {msg : List Nat} {i0 : Nat} {cl : Int}
    (hfs : findSeq crlfcrlf msg = some i0)
    (hcl : clOfLines (splitCRLF (msg.take (i0 + 4))) = .ok cl)
    (hclv : cl = (msg.length : Int) - (i0 + 4)) :
    ∀ k, k < msg.length → httpComplete (msg.take k) = .ok none := by
  intro k hk
  have hbound := findSeq_bound hfs
  have hcrlf : crlfcrlf ≠ [] := by decide
  have htake0 := findSeq_take crlfcrlf hcrlf msg k
  rw [hfs] at htake0
  have htake : findSeq crlfcrlf (msg.take k) =
      if i0 + crlfcrlf.length ≤ k then some i0 else none := htake0
  by_cases hkh : i0 + 4 ≤ k
  · have h4 : i0 + crlfcrlf.length ≤ k := by
      simp only [crlfcrlf, List.length_cons, List.length_nil] at *
      omega
    rw [if_pos h4] at htake
    unfold httpComplete headerEndIdx
    rw [htake]
    simp only [Option.map_some']
    have hhead : (msg.take k).take (i0 + 4) = msg.take (i0 + 4) := by
      rw [List.take_take]
      congr 1
      omega
    rw [hhead]
    simp only [hcl]
    have hblen : ((msg.take k).drop (i0 + 4)).length = k - (i0 + 4) := by
      simp only [List.length_drop, List.length_take]
      omega
    have hne : ¬ ((((msg.take k).drop (i0 + 4)).length : Int) ≥ cl) := by
      rw [hblen, hclv]
      have : ((k - (i0 + 4) : Nat) : Int) = (k : Int) - (i0 + 4) := by
        omega
      rw [this]
      omega
    rw [if_neg hne]
  · have h4 : ¬ (i0 + crlfcrlf.length ≤ k) := by
      simp only [crlfcrlf, List.length_cons, List.length_nil] at *
      omega
    rw [if_neg h4] at htake
    unfold httpComplete headerEndIdx
    rw [htake]
    rfl

theorem httpComplete_full {msg : List Nat} {i0 : Nat} {cl : Int}
    (hfs : findSeq crlfcrlf msg = some i0)
    (hcl : clOfLines (splitCRLF (msg.take (i0 + 4))) = .ok cl)
    (hclv : cl = (msg.length : Int) - (i0 + 4)) :
    httpComplete msg = .ok (some (msg.drop (i0 + 4))) := by
  have hbound := findSeq_bound hfs
  simp only [crlfcrlf, List.length_cons, List.length_nil] at hbound
  unfold httpComplete headerEndIdx
  rw [hfs]
  simp only [Option.map_some', hcl]
  have hblen : ((msg.drop (i0 + 4)).length : Int) = cl := by
    simp only [List.length_drop]
    omega
  have hge : ((msg.drop (i0 + 4)).length : Int) ≥ cl := by omega
  rw [if_pos hge]
  unfold pyTake
  have hcl0 : 0 ≤ cl := by omega
  rw [if_pos hcl0]
  congr 1
  have : cl.toNat = (msg.drop (i0 + 4)).length := by omega
  rw [this, List.take_length]

theorem httpFold_run {msg : List Nat} {i0 : Nat} {cl : Int}
    (hfs : findSeq crlfcrlf msg = some i0)
    (hcl : clOfLines (splitCRLF (msg.take (i0 + 4))) = .ok cl)
    (hclv : cl = (msg.length : Int) - (i0 + 4)) :
    ∀ (m k : Nat), msg.length - k ≤ m → k < msg.length →
      httpFold (chunks1024 (msg.drop k)) (msg.take k) =
        .ok (msg.drop (i0 + 4)) := by
  intro m
  induction m with
  | zero => intro k hm hk; omega
  | succ m ih =>
    intro k hm hk
    have hne : msg.drop k ≠ [] := by
      intro hc
      have := congrArg List.length hc
      simp only [List.length_drop, List.length_nil] at this
      omega
    rw [chunks1024_cons _ hne]
    have hacc : msg.take k ++ (msg.drop k).take 1024 = msg.take (k + 1024) :=
      (List.take_add msg k 1024).symm
    rw [httpFold, hacc]
    by_cases hend : msg.length ≤ k + 1024
    · have hall : msg.take (k + 1024) = msg := List.take_of_length_le hend
      rw [hall, httpComplete_full hfs hcl hclv]
    · rw [httpComplete_take hfs hcl hclv (k + 1024) (by omega)]
      have hdd : (msg.drop k).drop 1024 = msg.drop (k + 1024) := by
        rw [List.drop_drop]
      rw [hdd]
      exact ih (k + 1024) (by omega) (by omega)

theorem readEnc_agrees (key : HBytes) :
    ∀ (m : Nat) (data : List Nat) (c : Nat) (acc : List Nat),
      data.length ≤ m →
      readEncryptedLoop key (encryptChunks key data c).1 c acc =
        httpFold (chunks1024 data) acc := by
  intro m
  induction m with
  | zero =>
    intro data c acc h
    have hd : data = [] := List.eq_nil_of_length_eq_zero (Nat.le_zero.mp h)
    subst hd
    rfl
  | succ m ih =>
    intro data c acc h
    by_cases hd : data = []
    · subst hd
      rfl
    · have hlen : 0 < data.length := List.length_pos.mpr hd
      rw [encryptChunks_cons key data c hd, chunks1024_cons data hd]
      rw [readEncryptedLoop, httpFold]
      have hopen :
          sealOpenBS key (nonce12 c) (le2 (data.take 1024).length)
            ⟨key, nonce12 c, le2 (data.take 1024).length, data.take 1024⟩ =
            some (data.take 1024) := by
        simp [sealOpenBS]
      simp only [hopen]
      cases hcp : httpComplete (acc ++ data.take 1024) with
      | error e => rfl
      | ok ob =>
        cases ob with
        | some body => rfl
        | none =>
          exact ih (data.drop 1024) (c + 1) (acc ++ data.take 1024)
            (by simp only [List.length_drop]; omega)

/-- C6 (amended): for every HTTP-shaped plaintext message (header block
terminated by a blank line followed by exactly Content-Length body
bytes), encrypting with `_encrypt` from send counter 0 and decrypting the
produced chunk stream with `_read_encrypted_response` from an
independently initialized receive counter 0 under the matching key
succeeds and returns exactly the message's Content-Length body bytes
(the bytes after the blank line — the header block is stripped, so the
full original byte string is not what is returned); and decrypting after
skipping one counter value fails the authentication check. -/
theorem framing_roundtrip_body (key : HBytes) (msg : List Nat)
    (hwf : httpWf msg = true) :
    (∃ he, headerEndIdx msg = some he ∧
      readEncryptedLoop key (encryptChunks key msg 0).1 0 [] =
        .ok (msg.drop he)) ∧
    readEncryptedLoop key (encryptChunks key msg 0).1 1 [] =
      .error .badTag := by
  obtain ⟨i0, cl, hfs, hcl, hclv⟩ := httpWf_parts hwf
  have hbound := findSeq_bound hfs
  have hlen : 0 < msg.length := by
    simp only [crlfcrlf, List.length_cons, List.length_nil] at hbound
    omega
  have hne : msg ≠ [] := by
    intro hc
    rw [hc] at hlen
    simp at hlen
  constructor
  · refine ⟨i0 + 4, ?_, ?_⟩
    · unfold headerEndIdx
      rw [hfs]
      rfl
    · rw [readEnc_agrees key msg.length msg 0 [] le_rfl]
      exact httpFold_run hfs hcl hclv msg.length 0 (by omega) hlen
  · rw [encryptChunks_cons key msg 0 hne, readEncryptedLoop]
    have hnon : nonce12 0 ≠ nonce12 1 := by decide
    have hseal : sealOpenBS key (nonce12 1) (le2 (msg.take 1024).length)
        ⟨key, nonce12 0, le2 (msg.take 1024).length, msg.take 1024⟩ = none := by
      unfold sealOpenBS
      simp [hnon]
    simp only [hseal]

/-- A small HTTP-shaped message used by the C6 witness. -/
def msgW : List Nat := asciiBytes "Content-Length: 2\r\n\r\nhi"

/-- Witness for C6 at a concrete message: the roundtrip under key
`raw [7]` returns the two body bytes `"hi"`, and a skipped counter fails
the tag check. -/
theorem framing_roundtrip_body_w :
    httpWf msgW = true ∧
    readEncryptedLoop (.raw [7]) (encryptChunks (.raw [7]) msgW 0).1 0 [] =
      .ok (asciiBytes "hi") ∧
    readEncryptedLoop (.raw [7]) (encryptChunks (.raw [7]) msgW 0).1 1 [] =
      .error .badTag := by
  have h := framing_roundtrip_body (.raw [7]) msgW (by decide)
  obtain ⟨⟨he, hhe, hres⟩, hskip⟩ := h
  have hhe21 : he = 21 := by
    have : headerEndIdx msgW = some 21 := by decide
    rw [this] at hhe
    exact (Option.some.inj hhe).symm
  subst hhe21
  refine ⟨by decide, ?_, hskip⟩
  rw [hres]
  decide

/-- Counterexample for C6 as stated: decrypting the chunk stream of an
HTTP-shaped message returns only the body, not the original bytes — for
the message `"A\r\n\r\n"` (no Content-Length header, so a zero-length
body) the read returns `b""`, which differs from the original message. -/
theorem framing_roundtrip_cex :
    readEncryptedLoop (.raw [7])
        (encryptChunks (.raw [7]) (asciiBytes "A\r\n\r\n") 0).1 0 [] =
      .ok [] ∧
    ([] : List Nat) ≠ asciiBytes "A\r\n\r\n" := by
  constructor
  · decide
  · decide

/-- C3 (amended): on the inbound transport path a decryption failure (bad
AEAD tag) at any reached frame is fatal — the read raises instead of
returning data — and a stream that ends before a complete message has
accumulated raises a truncated-read error.  (The Content-Length
over-delivery case is NOT fatal; see the counterexample.) -/
theorem read_fatal_errors (key : HBytes) :
    ∀ (pre : List Frame) (f : Frame) (rest : List Frame) (c : Nat)
      (acc : List Nat) (c2 : Nat) (acc2 : List Nat),
      consumeFrames key pre c acc = some (c2, acc2) →
      (sealOpenBS key (nonce12 c2) f.lenBytes f.box = none →
        readEncryptedLoop key (pre ++ f :: rest) c acc = .error .badTag) ∧
      readEncryptedLoop key pre c acc = .error .truncated := by
  intro pre
  induction pre with
  | nil =>
    intro f rest c acc c2 acc2 hcons
    obtain ⟨rfl, rfl⟩ : c = c2 ∧ acc = acc2 := by
      rw [consumeFrames] at hcons
      exact ⟨congrArg Prod.fst (Option.some.inj hcons),
        congrArg Prod.snd (Option.some.inj hcons)⟩
    refine ⟨fun hseal => ?_, rfl⟩
    rw [List.nil_append, readEncryptedLoop]
    simp only [hseal]
  | cons g pre ih =>
    intro f rest c acc c2 acc2 hcons
    rw [consumeFrames] at hcons
    cases hseal : sealOpenBS key (nonce12 c) g.lenBytes g.box with
    | none => rw [hseal] at hcons; cases hcons
    | some pt =>
      simp only [hseal] at hcons
      cases hcp : httpComplete (acc ++ pt) with
      | error e => rw [hcp] at hcons; cases hcons
      | ok ob =>
        cases ob with
        | some body => rw [hcp] at hcons; cases hcons
        | none =>
          rw [hcp] at hcons
          have hih := ih f rest (c + 1) (acc ++ pt) c2 acc2 hcons
          constructor
          · intro hbad
            rw [List.cons_append, readEncryptedLoop]
            simp only [hseal, hcp]
            exact (hih.1 hbad)
          · rw [readEncryptedLoop]
            simp only [hseal, hcp]
            exact hih.2

/-- Frames used by the C3 witness: one consumed good frame, then a frame
sealed under the wrong nonce. -/
def goodFrame : Frame :=
  ⟨le2 1, ⟨.raw [3], nonce12 0, le2 1, [65]⟩⟩

/-- A frame whose tag check fails at receive counter 1 (sealed under
counter 5). -/
def badFrame : Frame :=
  ⟨le2 1, ⟨.raw [3], nonce12 5, le2 1, [66]⟩⟩

/-- Witness for C3: after consuming one good frame, a bad tag aborts the
read, and an exhausted stream aborts with a truncated-read error. -/
theorem read_fatal_errors_w :
    consumeFrames (.raw [3]) [goodFrame] 0 [] = some (1, [65]) ∧
    readEncryptedLoop (.raw [3]) [goodFrame, badFrame] 0 [] =
      .error .badTag ∧
    readEncryptedLoop (.raw [3]) [goodFrame] 0 [] = .error .truncated := by
  have h := read_fatal_errors (.raw [3]) [goodFrame] badFrame [] 0 [] 1 [65]
    (by decide)
  exact ⟨by decide, h.1 (by decide), h.2⟩

/-- Counterexample for C3 as stated: a Content-Length mismatch is not
fatal.  The single frame decrypts to
`"Content-Length: 1\r\n\r\nab"` — two accumulated body bytes against a
declared Content-Length of 1 — yet `_read_encrypted_response` returns the
data `b"a"` (the excess byte silently discarded) instead of failing. -/
theorem read_mismatch_tolerated_cex :
    readEncryptedLoop (.raw [3])
        (encryptChunks (.raw [3])
          (asciiBytes "Content-Length: 1\r\n\r\nab") 0).1 0 [] =
      .ok (asciiBytes "a") := by
  decide
